import Mathlib

/-!
Verification of the elife-iiif-deviation-checker scripts.

Python strings are embedded as `List Char`; `str.split(sep)` (with an
explicit one-character separator) is `pySplit`, `str.startswith` is
`pyStartswith`, `"/".join` is `List.intercalate ['/']`, and Python list
indexing `xs[i]` (which raises `IndexError` when out of range) is `[i]?`
lifted into `Except PyErr`.
-/

deriving instance DecidableEq for Except

namespace EomViewer

/-- Embedding of a Python `str` as its list of characters. -/
abbrev PyStr := List Char

/-- Shorthand for turning a Lean string literal into the embedding. -/
def pyStr (s : String) : PyStr := s.toList

/-- The runtime errors relevant to the sorter: Python's `IndexError`
(raised by out-of-range list indexing) and the `MalformedPathError`
named by the spec's error taxonomy. -/
inductive PyErr where
  | indexError
  | malformedPathError
deriving DecidableEq, Repr

/-- Python `s.split(sep)` with an explicit single-character separator:
splits at every occurrence of `sep`, keeping empty fields, and returns
`[""]` on the empty string. -/
def pySplit (sep : Char) : PyStr → List PyStr
  | [] => [[]]
  | c :: cs =>
    match pySplit sep cs with
    | [] => [[]]
    | w :: ws => if c = sep then [] :: w :: ws else (c :: w) :: ws

/-- Python `v.startswith(p)`: `p` is a prefix of `v`. -/
def pyStartswith (p v : PyStr) : Bool := List.isPrefixOf p v

/-- The literal from `v.startswith('image-cache/articles')`. -/
def articlesLit : PyStr := pyStr "image-cache/articles"

/-- The `sorter` function of `eom-viewer.py`, with Python's fallible list
indexing made explicit:

```
def sorter(v):
    if v.startswith('image-cache/articles'):
        return v
    msid = v.split('/')[1].split(':')[1]
    y = "/".join(v.split("/")[2:3])
    z = "image-cache/articles/%s/%s" % (msid,y)
    return z
```
-/
def sorterE (v : PyStr) : Except PyErr PyStr :=
  if pyStartswith articlesLit v then .ok v
  else
    match (pySplit '/' v)[1]? with
    | none => .error .indexError
    | some seg =>
      match (pySplit ':' seg)[1]? with
      | none => .error .indexError
      | some msid =>
        let y := List.intercalate ['/'] (((pySplit '/' v).drop 2).take 1)
        .ok (pyStr "image-cache/articles/" ++ msid ++ '/' :: y)

/-- Big-step evaluation relation for the body of `sorter`, one constructor
per control path of the function: the literal-prefix return, the two
indexing failures, and the remapping return. Used to state that the code is
a pure, deterministic mapping from the input path alone. -/
inductive SorterStep : PyStr → Except PyErr PyStr → Prop where
  | literalCase (v : PyStr) :
      pyStartswith articlesLit v = true → SorterStep v (.ok v)
  | missingSecond (v : PyStr) :
      pyStartswith articlesLit v = false →
      (pySplit '/' v)[1]? = none →
      SorterStep v (.error .indexError)
  | missingColon (v seg : PyStr) :
      pyStartswith articlesLit v = false →
      (pySplit '/' v)[1]? = some seg →
      (pySplit ':' seg)[1]? = none →
      SorterStep v (.error .indexError)
  | remapCase (v seg msid : PyStr) :
      pyStartswith articlesLit v = false →
      (pySplit '/' v)[1]? = some seg →
      (pySplit ':' seg)[1]? = some msid →
      SorterStep v (.ok (pyStr "image-cache/articles/" ++ msid ++ '/' ::
        List.intercalate ['/'] (((pySplit '/' v).drop 2).take 1)))

/-- Lexicographic (code-point) order on the embedded strings: `a ≤ b`,
matching Python string comparison. -/
def pyStrLe : PyStr → PyStr → Bool
  | [], _ => true
  | _ :: _, [] => false
  | a :: as, b :: bs => if a < b then true else if b < a then false else pyStrLe as bs

/-- The insertion step of a stable insertion sort by key: `x` goes in front
of the first element whose key is not strictly smaller than `x`'s. -/
def insortKey (key : PyStr → PyStr) (x : PyStr) : List PyStr → List PyStr
  | [] => [x]
  | y :: ys => if pyStrLe (key x) (key y) then x :: y :: ys else y :: insortKey key x ys

/-- A stable sort by key: a model of Python's stable
`sorted(results, key=sorter)`. -/
def sortKeyed (key : PyStr → PyStr) : List PyStr → List PyStr
  | [] => []
  | x :: xs => insortKey key x (sortKeyed key xs)

/-- The total key function passed to the sort. On every path where `sorterE`
succeeds it is the computed key; on an erroring path Python's `sorted`
would propagate the exception instead of producing an order, so the
fallback branch (returning the path itself) is never relied upon by any
theorem below. -/
def sorterKey (v : PyStr) : PyStr :=
  match sorterE v with
  | .ok k => k
  | .error _ => v

/-- The link-creation loop of `eom-viewer.py`, starting from counter `i`:

```
for i, row in enumerate(results):
    print(row)
    os.system("cd links && ln -s %s %s" % (os.path.abspath(row), i))
```

Each iteration creates one symlink named `str(i)` whose target is
`os.path.abspath(row)`; `abspath` is kept abstract, being an external
filesystem primitive. The list collects, in order, the
(link name, link target) pair of each `ln -s` invocation. -/
def linkCommandsFrom (abspath : PyStr → PyStr) (i : Nat) : List PyStr → List (PyStr × PyStr)
  | [] => []
  | row :: rest => (pyStr (Nat.repr i), abspath row) :: linkCommandsFrom abspath (i + 1) rest

/-- The whole loop: `enumerate` starts the counter at 0. -/
def linkCommands (abspath : PyStr → PyStr) (results : List PyStr) : List (PyStr × PyStr) :=
  linkCommandsFrom abspath 0 results

end EomViewer

namespace ReportParser

/-- One parsed line of `logs/report.json`: its `"message"` object, with the
optional numeric `"pae"` field and the `"article-id"` field. JSON numbers
are modelled as rationals; the claims at issue compare a value against the
literal threshold `0.9`, a comparison on which the rational and the
floating-point readings agree. -/
structure Message where
  pae : Option ℚ
  articleId : String
deriving DecidableEq

/-- The filter of `report-parser.py`:

```
if "pae" in result_line and result_line["pae"] and float(result_line["pae"]) >= 0.9:
```

`"pae" in result_line` is presence of the field, the bare
`result_line["pae"]` is Python truthiness (a number is truthy iff nonzero),
and the threshold comparison is `>= 0.9`. -/
def lineSelected (m : Message) : Bool :=
  match m.pae with
  | none => false
  | some q => decide (q ≠ 0) && decide ((9 : ℚ) / 10 ≤ q)

/-- The script's output: for each selected line it writes
`str(result_line["article-id"])` (followed by a space). -/
def reportOutput (msgs : List Message) : List String :=
  (msgs.filter lineSelected).map Message.articleId

end ReportParser

namespace EomViewer

theorem pySplit_ne_nil (sep : Char) (s : PyStr) : pySplit sep s ≠ [] := by
  cases s with
  | nil => simp [pySplit]
  | cons c cs =>
    simp only [pySplit]
    split
    · simp
    · split <;> simp

theorem pySplit_of_not_mem {sep : Char} {s : PyStr} (h : sep ∉ s) : pySplit sep s = [s] := by
  induction s with
  | nil => rfl
  | cons c cs ih =>
    have hc : ¬ (c = sep) := fun hce => h (hce ▸ List.mem_cons_self c cs)
    have hcs : sep ∉ cs := fun hm => h (List.mem_cons_of_mem _ hm)
    simp [pySplit, ih hcs, hc]

theorem pySplit_append {sep : Char} {a : PyStr} (r : PyStr) (h : sep ∉ a) :
    pySplit sep (a ++ sep :: r) = a :: pySplit sep r := by
  induction a with
  | nil =>
    simp only [List.nil_append, pySplit]
    cases hr : pySplit sep r with
    | nil => exact absurd hr (pySplit_ne_nil sep r)
    | cons w ws => simp
  | cons c cs ih =>
    have hc : ¬ (c = sep) := fun hce => h (hce ▸ List.mem_cons_self c cs)
    have hcs : sep ∉ cs := fun hm => h (List.mem_cons_of_mem _ hm)
    simp [pySplit, ih hcs, hc]

theorem pyStartswith_append (p t : PyStr) : pyStartswith p (p ++ t) = true := by
  induction p with
  | nil => simp [pyStartswith, List.isPrefixOf]
  | cons c cs ih => simp [pyStartswith, List.isPrefixOf]

theorem intercalate_single (sep x : PyStr) : List.intercalate sep [x] = x := by
  simp [List.intercalate]

theorem sorterE_of_startswith {v : PyStr} (h : pyStartswith articlesLit v = true) :
    sorterE v = .ok v := by
  simp [sorterE, h]

/-- The second-segment split of a well-formed non-literal path:
`v.split('/')` on `root ++ "/" ++ seg ++ "/" ++ sub ++ tail` (with `tail`
empty or beginning with a separator) yields `root`, `seg`, `sub`, then the
segments of the tail. -/
theorem pySplit_path {root seg sub : PyStr} (tail : PyStr)
    (hroot : '/' ∉ root) (hseg : '/' ∉ seg) (hsub : '/' ∉ sub)
    (htail : tail = [] ∨ ∃ t, tail = '/' :: t) :
    ∃ rest, pySplit '/' (root ++ '/' :: (seg ++ '/' :: (sub ++ tail)))
      = root :: seg :: sub :: rest := by
  rcases htail with rfl | ⟨t, rfl⟩
  · refine ⟨[], ?_⟩
    rw [pySplit_append _ hroot, pySplit_append _ hseg, List.append_nil,
      pySplit_of_not_mem hsub]
  · refine ⟨pySplit '/' t, ?_⟩
    rw [pySplit_append _ hroot, pySplit_append _ hseg, pySplit_append _ hsub]

/-- Claim C2: any path that begins with the literal `"image-cache/articles"`
is returned unchanged as its own sort key. -/
theorem sorter_literal_identity (v : PyStr)
    (h : pyStartswith articlesLit v = true) :
    sorterE v = .ok v :=
  sorterE_of_startswith h

theorem sorter_literal_identity_witness :
    sorterE (pyStr "image-cache/articles/123/bar")
      = .ok (pyStr "image-cache/articles/123/bar") :=
  sorter_literal_identity (pyStr "image-cache/articles/123/bar") (by decide)

/-- Claim C1: a path `root/collection:ID/sub/...` that does not begin with
the literal `"image-cache/articles"` gets the sort key
`image-cache/articles/ID/sub`, where `ID` is the part of the second segment
after the colon and `sub` is the third segment. -/
theorem sorter_remap_key (root c id sub tail : PyStr)
    (hroot : '/' ∉ root) (hcs : '/' ∉ c) (hcc : ':' ∉ c)
    (his : '/' ∉ id) (hic : ':' ∉ id) (hsub : '/' ∉ sub)
    (htail : tail = [] ∨ ∃ t, tail = '/' :: t)
    (hlit : pyStartswith articlesLit
      (root ++ '/' :: ((c ++ ':' :: id) ++ '/' :: (sub ++ tail))) = false) :
    sorterE (root ++ '/' :: ((c ++ ':' :: id) ++ '/' :: (sub ++ tail)))
      = .ok (pyStr "image-cache/articles/" ++ id ++ '/' :: sub) := by
  have hseg : '/' ∉ c ++ ':' :: id := by
    intro hm
    rcases List.mem_append.mp hm with h | h
    · exact hcs h
    · rcases List.mem_cons.mp h with h | h
      · exact absurd h (by decide)
      · exact his h
  obtain ⟨rest, hv⟩ := pySplit_path tail hroot hseg hsub htail
  have hcolon : pySplit ':' (c ++ ':' :: id) = c :: [id] := by
    rw [pySplit_append _ hcc, pySplit_of_not_mem hic]
  have hne : ¬ (pyStartswith articlesLit
      (root ++ '/' :: ((c ++ ':' :: id) ++ '/' :: (sub ++ tail))) = true) := by
    rw [hlit]
    simp
  unfold sorterE
  rw [if_neg hne, hv]
  simp [hcolon, intercalate_single]

theorem sorter_remap_key_witness :
    sorterE (pyStr "image-cache" ++ '/' ::
        ((pyStr "foo" ++ ':' :: pyStr "123") ++ '/' :: (pyStr "bar" ++ '/' :: pyStr "baz")))
      = .ok (pyStr "image-cache/articles/" ++ pyStr "123" ++ '/' :: pyStr "bar") :=
  sorter_remap_key (pyStr "image-cache") (pyStr "foo") (pyStr "123") (pyStr "bar")
    ('/' :: pyStr "baz") (by decide) (by decide) (by decide) (by decide) (by decide)
    (by decide) (Or.inr ⟨pyStr "baz", rfl⟩) (by decide)

/-- Claim C3 counterexample: on `"a/b:c:d/e"` the identifier placed in the
key is `"c"` — the text between the first and second colon of the second
segment — not the full suffix `"c:d"` after the first colon. -/
theorem sorter_msid_counterexample :
    sorterE (pyStr "a/b:c:d/e") = .ok (pyStr "image-cache/articles/c/e")
      ∧ sorterE (pyStr "a/b:c:d/e") ≠ .ok (pyStr "image-cache/articles/c:d/e") :=
  ⟨by decide, by decide⟩

/-- Claim C3 (amended): when the second segment is `c:id` possibly followed
by further colon-separated text, the identifier in the key is the part of
the second segment strictly between its first colon and its second colon
(`split(':')[1]`), not everything after the first colon. -/
theorem sorter_msid_between_colons (root c id ctail sub tail : PyStr)
    (hroot : '/' ∉ root) (hcs : '/' ∉ c) (hcc : ':' ∉ c)
    (his : '/' ∉ id) (hic : ':' ∉ id) (hcts : '/' ∉ ctail)
    (hct : ctail = [] ∨ ∃ t, ctail = ':' :: t)
    (hsub : '/' ∉ sub)
    (htail : tail = [] ∨ ∃ t, tail = '/' :: t)
    (hlit : pyStartswith articlesLit
      (root ++ '/' :: ((c ++ ':' :: (id ++ ctail)) ++ '/' :: (sub ++ tail))) = false) :
    sorterE (root ++ '/' :: ((c ++ ':' :: (id ++ ctail)) ++ '/' :: (sub ++ tail)))
      = .ok (pyStr "image-cache/articles/" ++ id ++ '/' :: sub) := by
  have hseg : '/' ∉ c ++ ':' :: (id ++ ctail) := by
    intro hm
    rcases List.mem_append.mp hm with h | h
    · exact hcs h
    · rcases List.mem_cons.mp h with h | h
      · exact absurd h (by decide)
      · rcases List.mem_append.mp h with h | h
        · exact his h
        · exact hcts h
  obtain ⟨rest, hv⟩ := pySplit_path tail hroot hseg hsub htail
  have hcolon : ∃ rest2, pySplit ':' (c ++ ':' :: (id ++ ctail)) = c :: id :: rest2 := by
    rcases hct with rfl | ⟨t, rfl⟩
    · refine ⟨[], ?_⟩
      rw [pySplit_append _ hcc, List.append_nil, pySplit_of_not_mem hic]
    · refine ⟨pySplit ':' t, ?_⟩
      rw [pySplit_append _ hcc, pySplit_append _ hic]
  obtain ⟨rest2, hcolon⟩ := hcolon
  have hne : ¬ (pyStartswith articlesLit
      (root ++ '/' :: ((c ++ ':' :: (id ++ ctail)) ++ '/' :: (sub ++ tail))) = true) := by
    rw [hlit]
    simp
  unfold sorterE
  rw [if_neg hne, hv]
  simp [hcolon, intercalate_single]

theorem sorter_msid_between_colons_witness :
    sorterE (pyStr "a" ++ '/' ::
        ((pyStr "b" ++ ':' :: (pyStr "c" ++ ':' :: pyStr "d")) ++ '/' :: (pyStr "e" ++ [])))
      = .ok (pyStr "image-cache/articles/" ++ pyStr "c" ++ '/' :: pyStr "e") :=
  sorter_msid_between_colons (pyStr "a") (pyStr "b") (pyStr "c") (':' :: pyStr "d")
    (pyStr "e") [] (by decide) (by decide) (by decide) (by decide) (by decide) (by decide)
    (Or.inr ⟨pyStr "d", rfl⟩) (by decide) (Or.inl rfl) (by decide)

/-- Claim C4 counterexample: on the malformed path `"a/b"` the sorter fails
with Python's `IndexError`, which is distinct from the spec's
`MalformedPathError`; moreover `"a/b:c"`, though it has fewer than three
segments, does not fail at all. -/
theorem sorter_error_kind_counterexample :
    sorterE (pyStr "a/b") = .error .indexError
      ∧ (Except.error PyErr.indexError : Except PyErr PyStr) ≠ .error .malformedPathError
      ∧ sorterE (pyStr "a/b:c") = .ok (pyStr "image-cache/articles/c/") :=
  ⟨by decide, by decide, by decide⟩

/-- Claim C4 (amended): on a path not matching the literal-prefix case whose
separator split has fewer than two segments, or whose second segment lacks a
colon, the sorter fails with an unnamed internal `IndexError` (out-of-range
list indexing); the code raises no distinct `MalformedPathError`. -/
theorem sorter_malformed_index_error (v : PyStr)
    (hlit : pyStartswith articlesLit v = false)
    (h : (pySplit '/' v).length < 2
      ∨ ∃ seg, (pySplit '/' v)[1]? = some seg ∧ (pySplit ':' seg).length < 2) :
    sorterE v = .error .indexError := by
  have hne : ¬ (pyStartswith articlesLit v = true) := by
    rw [hlit]
    simp
  unfold sorterE
  rw [if_neg hne]
  rcases h with h | ⟨seg, hseg, hlen⟩
  · have h1 : (pySplit '/' v)[1]? = none := List.getElem?_eq_none (by omega)
    simp [h1]
  · have h2 : (pySplit ':' seg)[1]? = none := List.getElem?_eq_none (by omega)
    simp [hseg, h2]

theorem sorter_malformed_index_error_witness :
    sorterE (pyStr "a/b") = .error .indexError :=
  sorter_malformed_index_error (pyStr "a/b") (by decide)
    (Or.inr ⟨pyStr "b", by decide, by decide⟩)

/-- Claim C10: a path with exactly two segments whose second segment
contains a colon does not error: the third-segment slice is empty and the
key is `image-cache/articles/<identifier>/`, ending in an empty component. -/
theorem sorter_two_segment (a s msid : PyStr)
    (ha : '/' ∉ a) (hs : '/' ∉ s)
    (hm : (pySplit ':' s)[1]? = some msid)
    (hlit : pyStartswith articlesLit (a ++ '/' :: s) = false) :
    sorterE (a ++ '/' :: s) = .ok (pyStr "image-cache/articles/" ++ msid ++ ['/']) := by
  have hne : ¬ (pyStartswith articlesLit (a ++ '/' :: s) = true) := by
    rw [hlit]
    simp
  have hv : pySplit '/' (a ++ '/' :: s) = [a, s] := by
    rw [pySplit_append _ ha, pySplit_of_not_mem hs]
  unfold sorterE
  rw [if_neg hne, hv]
  simp [hm, List.intercalate]

theorem sorter_two_segment_witness :
    sorterE (pyStr "a" ++ '/' :: pyStr "b:c")
      = .ok (pyStr "image-cache/articles/" ++ pyStr "c" ++ ['/']) :=
  sorter_two_segment (pyStr "a") (pyStr "b:c") (pyStr "c")
    (by decide) (by decide) (by decide) (by decide)

/-- Claim C9: the sorter is idempotent on its outputs. Every key it returns
either is the input (literal case) or begins with
`"image-cache/articles/"`, so a second application hits the literal-prefix
case and returns the key unchanged. -/
theorem sorter_idempotent (v k : PyStr) (h : sorterE v = .ok k) :
    sorterE k = .ok k := by
  by_cases hv : pyStartswith articlesLit v = true
  · rw [sorterE_of_startswith hv] at h
    obtain rfl : v = k := by
      injection h
    exact sorterE_of_startswith hv
  · unfold sorterE at h
    rw [if_neg hv] at h
    split at h
    · exact absurd h (by simp)
    · split at h
      · exact absurd h (by simp)
      · simp only [Except.ok.injEq] at h
        subst h
        apply sorterE_of_startswith
        have hsplit : pyStr "image-cache/articles/" = articlesLit ++ ['/'] := by decide
        rw [hsplit, List.append_assoc]
        exact pyStartswith_append _ _

theorem sorter_idempotent_witness :
    sorterE (pyStr "image-cache/articles/c/d") = .ok (pyStr "image-cache/articles/c/d") :=
  sorter_idempotent (pyStr "a/b:c/d") (pyStr "image-cache/articles/c/d") (by decide)

theorem sorterE_seg_none {v : PyStr} (hv : pyStartswith articlesLit v = false)
    (h1 : (pySplit '/' v)[1]? = none) : sorterE v = .error .indexError := by
  have hne : ¬ (pyStartswith articlesLit v = true) := by rw [hv]; simp
  unfold sorterE
  rw [if_neg hne]
  simp [h1]

theorem sorterE_colon_none {v seg : PyStr} (hv : pyStartswith articlesLit v = false)
    (h1 : (pySplit '/' v)[1]? = some seg) (h2 : (pySplit ':' seg)[1]? = none) :
    sorterE v = .error .indexError := by
  have hne : ¬ (pyStartswith articlesLit v = true) := by rw [hv]; simp
  unfold sorterE
  rw [if_neg hne]
  simp [h1, h2]

theorem sorterE_remap_eq {v seg msid : PyStr} (hv : pyStartswith articlesLit v = false)
    (h1 : (pySplit '/' v)[1]? = some seg) (h2 : (pySplit ':' seg)[1]? = some msid) :
    sorterE v = .ok (pyStr "image-cache/articles/" ++ msid ++ '/' ::
      List.intercalate ['/'] (((pySplit '/' v).drop 2).take 1)) := by
  have hne : ¬ (pyStartswith articlesLit v = true) := by rw [hv]; simp
  unfold sorterE
  rw [if_neg hne]
  simp [h1, h2]

/-- Claim C6: the sorter is a pure, deterministic function of its input
path alone. The evaluation relation over the function's control paths
relates every input to the computed result (totality) and relates each
input to at most one result (exactly one sort key per path); the embedding
is a plain function, with no state to mutate and no inputs besides the
path. -/
theorem sorter_pure_deterministic :
    (∀ v : PyStr, SorterStep v (sorterE v))
      ∧ ∀ (v : PyStr) (r₁ r₂ : Except PyErr PyStr),
          SorterStep v r₁ → SorterStep v r₂ → r₁ = r₂ := by
  constructor
  · intro v
    by_cases hv : pyStartswith articlesLit v = true
    · rw [sorterE_of_startswith hv]
      exact .literalCase v hv
    · have hv' : pyStartswith articlesLit v = false := by
        cases hb : pyStartswith articlesLit v
        · rfl
        · exact absurd hb hv
      cases h1 : (pySplit '/' v)[1]? with
      | none =>
        rw [sorterE_seg_none hv' h1]
        exact .missingSecond v hv' h1
      | some seg =>
        cases h2 : (pySplit ':' seg)[1]? with
        | none =>
          rw [sorterE_colon_none hv' h1 h2]
          exact .missingColon v seg hv' h1 h2
        | some msid =>
          rw [sorterE_remap_eq hv' h1 h2]
          exact .remapCase v seg msid hv' h1 h2
  · intro v r₁ r₂ h₁ h₂
    cases h₁ with
    | literalCase hL =>
      cases h₂ with
      | literalCase _ => rfl
      | missingSecond hF _ => rw [hL] at hF; cases hF
      | missingColon _ hF _ _ => rw [hL] at hF; cases hF
      | remapCase _ _ hF _ _ => rw [hL] at hF; cases hF
    | missingSecond hF hN =>
      cases h₂ with
      | literalCase hL => rw [hL] at hF; cases hF
      | missingSecond _ _ => rfl
      | missingColon _ _ _ _ => rfl
      | remapCase _ _ _ hS _ => rw [hN] at hS; cases hS
    | missingColon seg hF hS hN =>
      cases h₂ with
      | literalCase hL => rw [hL] at hF; cases hF
      | missingSecond _ hN2 => rfl
      | missingColon _ _ _ _ => rfl
      | remapCase seg2 msid2 _ hS2 hM2 =>
        rw [hS] at hS2
        injection hS2 with he
        subst he
        rw [hN] at hM2
        cases hM2
    | remapCase seg msid hF hS hM =>
      cases h₂ with
      | literalCase hL => rw [hL] at hF; cases hF
      | missingSecond _ hN => rw [hS] at hN; cases hN
      | missingColon seg2 _ hS2 hN2 =>
        rw [hS] at hS2
        injection hS2 with he
        subst he
        rw [hM] at hN2
        cases hN2
      | remapCase seg2 msid2 _ hS2 hM2 =>
        rw [hS] at hS2
        injection hS2 with he
        subst he
        rw [hM] at hM2
        injection hM2 with he2
        subst he2
        rfl

theorem sorter_pure_deterministic_witness :
    (Except.ok (pyStr "image-cache/articles/7") : Except PyErr PyStr)
      = .ok (pyStr "image-cache/articles/7") :=
  sorter_pure_deterministic.2 (pyStr "image-cache/articles/7") _ _
    (SorterStep.literalCase _ (by decide)) (SorterStep.literalCase _ (by decide))

theorem pyStrLe_refl (a : PyStr) : pyStrLe a a = true := by
  induction a with
  | nil => rfl
  | cons c cs ih => simp [pyStrLe, ih]

theorem insortKey_filter_ne (key : PyStr → PyStr) (x k : PyStr) (l : List PyStr)
    (hx : key x ≠ k) :
    (insortKey key x l).filter (fun y => decide (key y = k))
      = l.filter (fun y => decide (key y = k)) := by
  induction l with
  | nil => simp [insortKey, hx]
  | cons y ys ih =>
    by_cases hle : pyStrLe (key x) (key y) = true
    · simp [insortKey, hle, hx]
    · simp [insortKey, hle, ih, List.filter_cons]

theorem insortKey_filter_eq (key : PyStr → PyStr) (x k : PyStr) (l : List PyStr)
    (hx : key x = k) :
    (insortKey key x l).filter (fun y => decide (key y = k))
      = x :: l.filter (fun y => decide (key y = k)) := by
  induction l with
  | nil => simp [insortKey, hx]
  | cons y ys ih =>
    by_cases hle : pyStrLe (key x) (key y) = true
    · simp only [insortKey, if_pos hle]
      simp [List.filter_cons, hx]
    · have hy : key y ≠ k := by
        intro he
        exact hle (by rw [hx, ← he]; exact pyStrLe_refl _)
      simp only [insortKey, if_neg hle]
      simp [List.filter_cons, hy, ih]

theorem sortKeyed_filter (key : PyStr → PyStr) (k : PyStr) (l : List PyStr) :
    (sortKeyed key l).filter (fun y => decide (key y = k))
      = l.filter (fun y => decide (key y = k)) := by
  induction l with
  | nil => rfl
  | cons x xs ih =>
    by_cases hx : key x = k
    · rw [sortKeyed, insortKey_filter_eq _ _ _ _ hx, ih, List.filter_cons,
        if_pos (by simp [hx])]
    · rw [sortKeyed, insortKey_filter_ne _ _ _ _ hx, ih, List.filter_cons,
        if_neg (by simp [hx])]

/-- Claim C5: both elements of the example list produce the key
`"image-cache/articles/123/bar"`, and the sort is stable — for every key
value it preserves the relative order of the elements with that key — so
the two example elements keep their input order after sorting. -/
theorem sort_example_stable :
    (sorterE (pyStr "image-cache/foo:123/bar/baz")
        = .ok (pyStr "image-cache/articles/123/bar")
      ∧ sorterE (pyStr "image-cache/articles/123/bar")
        = .ok (pyStr "image-cache/articles/123/bar")
      ∧ sortKeyed sorterKey
          [pyStr "image-cache/foo:123/bar/baz", pyStr "image-cache/articles/123/bar"]
        = [pyStr "image-cache/foo:123/bar/baz", pyStr "image-cache/articles/123/bar"])
      ∧ ∀ (key : PyStr → PyStr) (k : PyStr) (l : List PyStr),
          (sortKeyed key l).filter (fun y => decide (key y = k))
            = l.filter (fun y => decide (key y = k)) :=
  ⟨⟨by decide, by decide, by decide⟩, sortKeyed_filter⟩

theorem linkCommandsFrom_length (f : PyStr → PyStr) (i : Nat) (l : List PyStr) :
    (linkCommandsFrom f i l).length = l.length := by
  induction l generalizing i with
  | nil => rfl
  | cons x xs ih => simp [linkCommandsFrom, ih]

theorem linkCommandsFrom_getElem (f : PyStr → PyStr) (i j : Nat) (l : List PyStr)
    (h : j < l.length) :
    (linkCommandsFrom f i l)[j]? = some (pyStr (Nat.repr (i + j)), f (l.get ⟨j, h⟩)) := by
  induction l generalizing i j with
  | nil => simp at h
  | cons x xs ih =>
    cases j with
    | zero => simp [linkCommandsFrom]
    | succ j =>
      have hj : j < xs.length := by simpa using h
      have harith : i + (j + 1) = (i + 1) + j := by omega
      simp [linkCommandsFrom, ih (i + 1) j hj, harith]

/-- Claim C7: the loop `for i, row in enumerate(results)` emits one symlink
per file, named by consecutive integers starting at `"0"` in list order:
the i-th command creates a link named `str(i)` whose target is
`os.path.abspath` of the i-th element of the sorted list. -/
theorem link_loop_enumerates (abspath : PyStr → PyStr) (results : List PyStr)
    (i : Nat) (h : i < results.length) :
    (linkCommands abspath results).length = results.length
      ∧ (linkCommands abspath results)[i]?
          = some (pyStr (Nat.repr i), abspath (results.get ⟨i, h⟩)) := by
  refine ⟨linkCommandsFrom_length _ _ _, ?_⟩
  have hg := linkCommandsFrom_getElem abspath 0 i results h
  simpa [linkCommands] using hg

theorem link_loop_enumerates_witness :
    (linkCommands id [pyStr "image-cache/articles/1/a", pyStr "image-cache/articles/2/b"]).length
        = [pyStr "image-cache/articles/1/a", pyStr "image-cache/articles/2/b"].length
      ∧ (linkCommands id [pyStr "image-cache/articles/1/a", pyStr "image-cache/articles/2/b"])[1]?
          = some (pyStr (Nat.repr 1),
              id ([pyStr "image-cache/articles/1/a", pyStr "image-cache/articles/2/b"].get
                ⟨1, by decide⟩)) :=
  link_loop_enumerates id
    [pyStr "image-cache/articles/1/a", pyStr "image-cache/articles/2/b"] 1 (by decide)

end EomViewer

namespace ReportParser

/-- Claim C8 counterexample: a line whose `pae` equals the threshold `0.9`
exactly is selected and its article id printed, although `0.9` does not
strictly exceed `0.9`: the code compares with `>=`, not `>`. -/
theorem threshold_counterexample :
    lineSelected ⟨some ((9 : ℚ) / 10), "84364"⟩ = true
      ∧ ¬ ((9 : ℚ) / 10 > (9 : ℚ) / 10)
      ∧ reportOutput [⟨some ((9 : ℚ) / 10), "84364"⟩] = ["84364"] := by
  have h1 : lineSelected ⟨some ((9 : ℚ) / 10), "84364"⟩ = true := by
    norm_num [lineSelected]
  refine ⟨h1, by norm_num, ?_⟩
  simp [reportOutput, List.filter_cons, h1]

/-- Claim C8 (amended): a line's article id is printed iff its message has
the numeric `pae` field, the field is truthy (nonzero), and its value is
greater than **or equal to** the threshold `0.9`. -/
theorem threshold_selects (m : Message) :
    lineSelected m = true
      ↔ ∃ q : ℚ, m.pae = some q ∧ q ≠ 0 ∧ (9 : ℚ) / 10 ≤ q := by
  cases m with
  | mk pae aid =>
    cases pae with
    | none => simp [lineSelected]
    | some q => simp [lineSelected]

end ReportParser
